import Mathlib

/-!
Verification of the runtime value model and fallible arithmetic of the VRL
expression-language core (`src/compiler/value/arithmetic.rs`,
`src/value/value/serde.rs`, `src/stdlib/parse_json.rs`), via a shallow
embedding in Lean.

Modelling conventions:
* Rust `i64` values are embedded as `ℤ`; wrapping arithmetic is made explicit
  with `wrap64`.
* `rust_decimal::Decimal` is embedded as a signed mantissa (`ℤ`) with a scale
  (`ℕ`); the valid representations satisfy `|m| ≤ 2^96 - 1` and `s ≤ 28`.
  The crate is an external dependency, so its checked operations are modelled
  from the specification ("checked, errors on overflow").
* `f64` is embedded as an exact rational together with the IEEE special values
  `inf`, `-inf` and `NaN`.  Rounding of finite results is not modelled (no
  claim inspects a rounded finite float result); special-value propagation
  follows IEEE-754.
* Byte strings are embedded as `List Char`.
-/

set_option maxRecDepth 100000

namespace VRL

/-! ## Floating point model -/

/-- Modelled from the spec: `f64` values, split into exact finite rationals
and the IEEE special values.  The spec's `Float` variant is "finite f64, NaN
excluded by construction", but the underlying `NotNan` type also admits
infinities, which are representable here. -/
inductive F64 where
  | finite (q : ℚ)
  | inf
  | neginf
  | nan
deriving DecidableEq

/-- Truncation of a rational toward zero (the rounding used by Rust float
casts and `%`). -/
def truncQ (q : ℚ) : ℤ := q.num.tdiv q.den

/-- Modelled from the spec: IEEE negation. -/
def f64neg : F64 → F64
  | .finite a => .finite (-a)
  | .inf => .neginf
  | .neginf => .inf
  | .nan => .nan

/-- Modelled from the spec: IEEE addition (finite results kept exact). -/
def f64add : F64 → F64 → F64
  | .nan, _ => .nan
  | _, .nan => .nan
  | .inf, .neginf => .nan
  | .neginf, .inf => .nan
  | .inf, _ => .inf
  | _, .inf => .inf
  | .neginf, _ => .neginf
  | _, .neginf => .neginf
  | .finite a, .finite b => .finite (a + b)

/-- Modelled from the spec: IEEE subtraction. -/
def f64sub (a b : F64) : F64 := f64add a (f64neg b)

/-- Modelled from the spec: IEEE multiplication. -/
def f64mul : F64 → F64 → F64
  | .nan, _ => .nan
  | _, .nan => .nan
  | .inf, .inf => .inf
  | .inf, .neginf => .neginf
  | .neginf, .inf => .neginf
  | .neginf, .neginf => .inf
  | .inf, .finite b => if b = 0 then .nan else if 0 < b then .inf else .neginf
  | .neginf, .finite b => if b = 0 then .nan else if 0 < b then .neginf else .inf
  | .finite a, .inf => if a = 0 then .nan else if 0 < a then .inf else .neginf
  | .finite a, .neginf => if a = 0 then .nan else if 0 < a then .neginf else .inf
  | .finite a, .finite b => .finite (a * b)

/-- Modelled from the spec: IEEE division (signed zeros collapsed). -/
def f64div : F64 → F64 → F64
  | .nan, _ => .nan
  | _, .nan => .nan
  | .inf, .inf => .nan
  | .inf, .neginf => .nan
  | .neginf, .inf => .nan
  | .neginf, .neginf => .nan
  | .inf, .finite b => if b < 0 then .neginf else .inf
  | .neginf, .finite b => if b < 0 then .inf else .neginf
  | .finite _, .inf => .finite 0
  | .finite _, .neginf => .finite 0
  | .finite a, .finite b =>
      if b = 0 then (if a = 0 then .nan else if 0 < a then .inf else .neginf)
      else .finite (a / b)

/-- Modelled from the spec: IEEE remainder (Rust `%` on floats, i.e. `fmod`
with truncated quotient). -/
def f64rem : F64 → F64 → F64
  | .nan, _ => .nan
  | _, .nan => .nan
  | .inf, _ => .nan
  | .neginf, _ => .nan
  | .finite a, .inf => .finite a
  | .finite a, .neginf => .finite a
  | .finite a, .finite b =>
      if b = 0 then .nan else .finite (a - b * (truncQ (a / b) : ℚ))

/-- Modelled from the spec: IEEE equality test (`NaN` compares unequal to
everything, including itself; `-0.0` is collapsed into `0`). -/
def f64eq : F64 → F64 → Bool
  | .finite a, .finite b => decide (a = b)
  | .inf, .inf => true
  | .neginf, .neginf => true
  | _, _ => false

/-- Modelled from the spec: the exact `i64 → f64` cast (rounding above 2^53 is
not modelled; no claim inspects such a cast result). -/
def intToF64 (n : ℤ) : F64 := .finite (n : ℚ)

/-- Modelled from the spec: the saturating `f64 → i64` Rust `as` cast.  Every
use in the embedded operators is dead code (the float case is matched away
first), but it is kept for faithfulness. -/
def f64toI64 : F64 → ℤ
  | .nan => 0
  | .inf => 2 ^ 63 - 1
  | .neginf => -(2 ^ 63)
  | .finite q =>
      let t := truncQ q
      if t < -(2 ^ 63) then -(2 ^ 63) else if 2 ^ 63 - 1 < t then 2 ^ 63 - 1 else t

/-- Modelled from the spec: `ordered_float::NotNan::new`, which fails exactly
on NaN. -/
def notNanNew : F64 → Option F64
  | .nan => none
  | x => some x

/-! ## Decimal model -/

/-- The largest `rust_decimal` mantissa: `2^96 - 1`. -/
def decMaxMantissa : ℕ := 2 ^ 96 - 1

/-- Modelled from the spec: `rust_decimal::Decimal`, a signed 96-bit mantissa
with a decimal scale of at most 28.  Negative zero is not distinguished. -/
structure Dec where
  m : ℤ
  s : ℕ
deriving DecidableEq

/-- `Decimal::is_zero`: the value is zero regardless of scale. -/
def Dec.isZero (d : Dec) : Bool := decide (d.m = 0)

/-- `Decimal::from(i64)`. -/
def Dec.fromInt (n : ℤ) : Dec := ⟨n, 0⟩

/-- `rust_decimal` value equality (`PartialEq` compares values, not
representations: `1.200 == 1.2`). -/
def Dec.valEq (a b : Dec) : Bool := decide (a.m * 10 ^ b.s = b.m * 10 ^ a.s)

/-- `Decimal::MAX`. -/
def Dec.MAX : Dec := ⟨(2 : ℤ) ^ 96 - 1, 0⟩

/-- `Decimal::MIN`. -/
def Dec.MIN : Dec := ⟨-((2 : ℤ) ^ 96 - 1), 0⟩

/-- Drop the last decimal digit of a mantissa, rounding half away from zero. -/
def roundDigit (m : ℤ) : ℤ :=
  let n := m.natAbs
  let r : ℤ := (n / 10 : ℕ) + (if 5 ≤ n % 10 then 1 else 0)
  if m < 0 then -r else r

/-- Modelled from the spec: fit a mantissa/scale pair into the Decimal range
by dropping fractional digits (with rounding) until the 96-bit mantissa bound
and the scale bound 28 hold, failing when the scale is exhausted. -/
def Dec.reduceFit : ℕ → ℤ → Option Dec
  | 0, m => if m.natAbs ≤ decMaxMantissa then some ⟨m, 0⟩ else none
  | s + 1, m =>
      if m.natAbs ≤ decMaxMantissa ∧ s + 1 ≤ 28 then some ⟨m, s + 1⟩
      else Dec.reduceFit s (roundDigit m)

/-- Modelled from the spec: `Decimal::checked_add` — checked addition, errors
on overflow.  The exact sum at the common scale is returned when its mantissa
fits, otherwise the operation fails.  (The crate's precision-dropping rescue
for mixed scales is not modelled; no claim exercises it.) -/
def Dec.checkedAdd (a b : Dec) : Option Dec :=
  let s := max a.s b.s
  let m := a.m * 10 ^ (s - a.s) + b.m * 10 ^ (s - b.s)
  if m.natAbs ≤ decMaxMantissa then some ⟨m, s⟩ else none

/-- Modelled from the spec: `Decimal::checked_sub`. -/
def Dec.checkedSub (a b : Dec) : Option Dec := a.checkedAdd ⟨-b.m, b.s⟩

/-- Modelled from the spec: `Decimal::checked_mul` — the exact product, with
fractional digits dropped (rounding) while the result does not fit; errors on
overflow. -/
def Dec.checkedMul (a b : Dec) : Option Dec :=
  Dec.reduceFit (a.s + b.s) (a.m * b.m)

/-- Modelled from the spec: `Decimal::checked_div` — the quotient computed to
scale 28 and fitted into range; fails on a zero divisor or overflow.  (Callers
in the arithmetic engine test for a zero divisor first.) -/
def Dec.checkedDiv (a b : Dec) : Option Dec :=
  if b.m = 0 then none
  else Dec.reduceFit 28 ((a.m * 10 ^ (b.s + 28)).tdiv (b.m * 10 ^ a.s))

/-- Modelled from the spec: `Decimal::checked_rem` — the truncated remainder
at the common scale; fails on a zero divisor or overflow. -/
def Dec.checkedRem (a b : Dec) : Option Dec :=
  if b.m = 0 then none
  else
    let s := max a.s b.s
    let r := (a.m * 10 ^ (s - a.s)).tmod (b.m * 10 ^ (s - b.s))
    if r.natAbs ≤ decMaxMantissa then some ⟨r, s⟩ else none

/-- `Decimal::fract().is_zero()`: the fractional part vanishes. -/
def Dec.fractIsZero (d : Dec) : Bool := decide ((10 : ℤ) ^ d.s ∣ d.m)

/-- `i64::try_from(Decimal)`: succeeds for fraction-free values inside the
`i64` range. -/
def Dec.tryToI64 (d : Dec) : Option ℤ :=
  if (10 : ℤ) ^ d.s ∣ d.m then
    let v := d.m / 10 ^ d.s
    if -(2 ^ 63) ≤ v ∧ v < 2 ^ 63 then some v else none
  else none

/-! ## Value model -/

/-- The static kind of a value, used in error payloads
(`Value::kind()` restricted to singleton kinds). -/
inductive Kind where
  | bytes
  | integer
  | float
  | decimal
  | boolean
  | timestamp
  | regex
  | null
  | array
  | object
deriving DecidableEq

/-- The runtime value model (`Value` in `src/value`): a closed tagged union.
Timestamps are abstracted to an integer instant and regexes to their pattern
text; neither is inspected by any modelled operation beyond equality. -/
inductive Value where
  | null
  | boolean (b : Bool)
  | integer (n : ℤ)
  | float (f : F64)
  | decimal (d : Dec)
  | bytes (s : List Char)
  | timestamp (t : ℤ)
  | regex (r : List Char)
  | array (l : List Value)
  | object (o : List (List Char × Value))

/-- `Value::kind()`. -/
def Value.kind : Value → Kind
  | .null => .null
  | .boolean _ => .boolean
  | .integer _ => .integer
  | .float _ => .float
  | .decimal _ => .decimal
  | .bytes _ => .bytes
  | .timestamp _ => .timestamp
  | .regex _ => .regex
  | .array _ => .array
  | .object _ => .object

/-- The arithmetic error taxonomy (`ValueError`): one variant per operator
carrying the two offending kinds, plus the distinguished divide-by-zero. -/
inductive ValueError where
  | mul (l r : Kind)
  | div (l r : Kind)
  | add (l r : Kind)
  | sub (l r : Kind)
  | rem (l r : Kind)
  | and (l r : Kind)
  | divideByZero
deriving DecidableEq

/-- Modelled from the spec: `VrlValueConvert::try_into_i64` (the conversion
trait lives outside the visible sources).  Integers convert directly, floats
by saturating truncation, everything else is rejected — matching the "Other:
error" column of the promotion table. -/
def Value.tryIntoI64 : Value → Option ℤ
  | .integer v => some v
  | .float v => some (f64toI64 v)
  | _ => none

/-- Modelled from the spec: `VrlValueConvert::try_into_f64`.  Integers and
floats convert; Decimal is NOT supported (the source comments on this), which
realises the rejected Float⊗Decimal row of the promotion table. -/
def Value.tryIntoF64 : Value → Option F64
  | .integer v => some (intToF64 v)
  | .float v => some v
  | _ => none

/-- Modelled from the spec: `VrlValueConvert::try_into_decimal`.  Integers and
decimals convert; floats are rejected (the Float⊗Decimal mix errors, forcing
an explicit coercion). -/
def Value.tryIntoDecimal : Value → Option Dec
  | .integer v => some (Dec.fromInt v)
  | .decimal d => some d
  | _ => none

/-- Modelled from the spec: `Value::from_f64_or_zero` — construction from an
`f64` that normalizes NaN away, to zero. -/
def fromF64OrZero : F64 → Value
  | .nan => .float (.finite 0)
  | x => .float x

/-- Two's-complement wrapping into the `i64` range. -/
def wrap64 (x : ℤ) : ℤ := (x + 2 ^ 63) % 2 ^ 64 - 2 ^ 63

/-- The negative-repeat-count clamp used by byte-string repetition
(`as_usize` in `try_mul`). -/
def asUsize (n : ℤ) : ℕ := if n < 0 then 0 else n.toNat

/-- `Bytes::repeat`. -/
def repeatList (s : List Char) (n : ℕ) : List Char := (List.replicate n s).flatten

/-! ## The arithmetic engine -/

/-- `Value::try_mul`. -/
def tryMul (a b : Value) : Except ValueError Value :=
  match a, b with
  | .integer l, .bytes s => .ok (.bytes (repeatList s (asUsize l)))
  | .integer l, .float r => .ok (fromF64OrZero (f64mul (intToF64 l) r))
  | .integer l, .decimal r =>
      match (Dec.fromInt l).checkedMul r with
      | some v => .ok (.decimal v)
      | none => .error (.mul .integer .decimal)
  | .integer l, rhs =>
      match rhs.tryIntoI64 with
      | some r => .ok (.integer (wrap64 (l * r)))
      | none => .error (.mul .integer rhs.kind)
  | .float l, rhs =>
      match rhs.tryIntoF64 with
      | some r => .ok (.float (f64mul l r))
      | none => .error (.mul .float rhs.kind)
  | .decimal l, rhs =>
      match rhs.tryIntoDecimal with
      | some r =>
          match l.checkedMul r with
          | some v => .ok (.decimal v)
          | none => .error (.mul .decimal .decimal)
      | none => .error (.mul .decimal rhs.kind)
  | .bytes s, .integer r => .ok (.bytes (repeatList s (asUsize r)))
  | lhs, rhs => .error (.mul lhs.kind rhs.kind)

/-- `Value::try_div`. -/
def tryDiv (a b : Value) : Except ValueError Value :=
  match a, b with
  | .decimal l, rhs =>
      match rhs.tryIntoDecimal with
      | none => .error (.div .decimal rhs.kind)
      | some r =>
          if r.isZero then .error .divideByZero
          else
            match l.checkedDiv r with
            | some v => .ok (.decimal v)
            | none => .error (.div .decimal rhs.kind)
  | .integer l, .decimal r =>
      if r.isZero then .error .divideByZero
      else
        match (Dec.fromInt l).checkedDiv r with
        | some v => .ok (.decimal v)
        | none => .error (.div .integer .decimal)
  | lhs, rhs =>
      match rhs.tryIntoF64 with
      | none => .error (.div lhs.kind rhs.kind)
      | some rf =>
          if f64eq rf (.finite 0) then .error .divideByZero
          else
            match lhs with
            | .integer l => .ok (fromF64OrZero (f64div (intToF64 l) rf))
            | .float l => .ok (fromF64OrZero (f64div l rf))
            | _ => .error (.div lhs.kind rhs.kind)

/-- `Value::try_add`. -/
def tryAdd (a b : Value) : Except ValueError Value :=
  match a, b with
  | .integer l, .float r => .ok (fromF64OrZero (f64add (intToF64 l) r))
  | .integer l, .decimal r =>
      match (Dec.fromInt l).checkedAdd r with
      | some v => .ok (.decimal v)
      | none => .error (.add .integer .decimal)
  | .integer l, rhs =>
      match rhs.tryIntoI64 with
      | some r => .ok (.integer (wrap64 (l + r)))
      | none => .error (.add .integer rhs.kind)
  | .float l, rhs =>
      match rhs.tryIntoF64 with
      | some r => .ok (.float (f64add l r))
      | none => .error (.add .float rhs.kind)
  | .decimal l, rhs =>
      match rhs.tryIntoDecimal with
      | some r =>
          match l.checkedAdd r with
          | some v => .ok (.decimal v)
          | none => .error (.add .decimal .decimal)
      | none => .error (.add .decimal rhs.kind)
  | .bytes s, .null => .ok (.bytes s)
  | .bytes s1, .bytes s2 => .ok (.bytes (s1 ++ s2))
  | .null, .bytes s => .ok (.bytes s)
  | lhs, rhs => .error (.add lhs.kind rhs.kind)

/-- `safe_sub`: float subtraction that reports a NaN result as `none`. -/
def safeSub (l r : F64) : Option Value :=
  let result := f64sub l r
  if result = .nan then none else some (fromF64OrZero result)

/-- `Value::try_sub`. -/
def trySub (a b : Value) : Except ValueError Value :=
  match a, b with
  | .integer l, .float r => .ok (fromF64OrZero (f64sub (intToF64 l) r))
  | .integer l, .decimal r =>
      match (Dec.fromInt l).checkedSub r with
      | some v => .ok (.decimal v)
      | none => .error (.sub .integer .decimal)
  | .integer l, rhs =>
      match rhs.tryIntoI64 with
      | some r => .ok (.integer (wrap64 (l - r)))
      | none => .error (.sub .integer rhs.kind)
  | .float l, rhs =>
      match rhs.tryIntoF64 with
      | some r =>
          match safeSub l r with
          | some v => .ok v
          | none => .error (.sub .float rhs.kind)
      | none => .error (.sub .float rhs.kind)
  | .decimal l, rhs =>
      match rhs.tryIntoDecimal with
      | some r =>
          match l.checkedSub r with
          | some v => .ok (.decimal v)
          | none => .error (.sub .decimal .decimal)
      | none => .error (.sub .decimal rhs.kind)
  | lhs, rhs => .error (.sub lhs.kind rhs.kind)

/-- `Value::try_rem`. -/
def tryRem (a b : Value) : Except ValueError Value :=
  match a, b with
  | .decimal l, rhs =>
      match rhs.tryIntoDecimal with
      | none => .error (.rem .decimal rhs.kind)
      | some r =>
          if r.isZero then .error .divideByZero
          else
            match l.checkedRem r with
            | some v => .ok (.decimal v)
            | none => .error (.rem .decimal .decimal)
  | .integer l, .decimal r =>
      if r.isZero then .error .divideByZero
      else
        match (Dec.fromInt l).checkedRem r with
        | some v => .ok (.decimal v)
        | none => .error (.rem .integer .decimal)
  | lhs, rhs =>
      match rhs.tryIntoF64 with
      | none => .error (.rem lhs.kind rhs.kind)
      | some rf =>
          if f64eq rf (.finite 0) then .error .divideByZero
          else
            match lhs, rhs with
            | .integer l, .float r => .ok (fromF64OrZero (f64rem (intToF64 l) r))
            | .integer l, rhs' =>
                match rhs'.tryIntoI64 with
                | some r => .ok (.integer (l.tmod r))
                | none => .error (.rem .integer rhs'.kind)
            | .float l, rhs' =>
                match rhs'.tryIntoF64 with
                | some r => .ok (.float (f64rem l r))
                | none => .error (.rem .float rhs'.kind)
            | _, _ => .error (.rem lhs.kind rhs.kind)

/-- `Value::try_and`. -/
def tryAnd (a b : Value) : Except ValueError Value :=
  match a with
  | .null => .ok (.boolean false)
  | .boolean l =>
      match b with
      | .null => .ok (.boolean false)
      | .boolean r => .ok (.boolean (l && r))
      | _ => .error (.and .boolean b.kind)
  | _ => .error (.and a.kind b.kind)

/-- Membership of the `i64` range. -/
def inI64 (x : ℤ) : Prop := -(2 ^ 63) ≤ x ∧ x < 2 ^ 63

/-- An operator result does not embed a NaN float. -/
def noNanResult : Except ValueError Value → Bool
  | .ok (.float .nan) => false
  | _ => true

/-! ## Characters, digits and numeric text -/

/-- Byte strings and JSON text are embedded as character lists. -/
abbrev Str := List Char

/-- ASCII whitespace (the fragment of `str::trim` the numeric strings use). -/
def isWsChar (c : Char) : Bool := c == ' ' || c == '\t' || c == '\n' || c == '\r'

/-- `str::trim`. -/
def trimChars (s : Str) : Str :=
  ((s.dropWhile isWsChar).reverse.dropWhile isWsChar).reverse

/-- Strip an optional leading sign, returning whether it was negative. -/
def splitSign (cs : Str) : Bool × Str :=
  match cs with
  | [] => (false, [])
  | c :: r => if c = '-' then (true, r) else if c = '+' then (false, r) else (false, c :: r)

/-- The numeric value of an ASCII digit. -/
def digitVal (c : Char) : ℕ := c.toNat - 48

/-- The ASCII digit for a value below 10. -/
def digitChar (d : ℕ) : Char := Char.ofNat (48 + d)

/-- Big-endian digit-list evaluation. -/
def ofDigitsBE (ds : List ℕ) : ℕ := ds.foldl (fun a d => 10 * a + d) 0

/-- The numeric value of a big-endian ASCII digit string. -/
def charsToNat (cs : Str) : ℕ := ofDigitsBE (cs.map digitVal)

/-- Fuelled digit extraction (base 10, big-endian). -/
def digitsAuxBE : ℕ → ℕ → List ℕ
  | 0, _ => []
  | _ + 1, 0 => []
  | fuel + 1, n + 1 => digitsAuxBE fuel ((n + 1) / 10) ++ [(n + 1) % 10]

/-- The big-endian digits of a natural number (`[]` for zero). -/
def digitsBE (n : ℕ) : List ℕ := digitsAuxBE n n

/-- Left-pad a digit list with zeros to the given length. -/
def padZeros (len : ℕ) (ds : List ℕ) : List ℕ :=
  List.replicate (len - ds.length) 0 ++ ds

/-- Decimal text of a natural number. -/
def natToChars (n : ℕ) : Str :=
  if n = 0 then ['0'] else (digitsBE n).map digitChar

/-- Decimal text of an integer (Rust `i64::to_string`). -/
def intToChars (n : ℤ) : Str :=
  (if n < 0 then ['-'] else []) ++ natToChars n.natAbs

/-- Rust `i64::from_str`: optional sign, then one or more ASCII digits, value
within the `i64` range. -/
def parseI64 (cs : Str) : Option ℤ :=
  let signSplit := splitSign cs
  let ds := signSplit.2
  if ds ≠ [] ∧ ds.all Char.isDigit then
    let x : ℤ := if signSplit.1 then -(charsToNat ds : ℤ) else (charsToNat ds : ℤ)
    if -(2 ^ 63) ≤ x ∧ x < 2 ^ 63 then some x else none
  else none

/-- Split a character list at the first separator satisfying `t`, returning
the prefix and (when a separator was found) the remainder. -/
def breakAtChar (t : Char → Bool) : Str → Str × Option Str
  | [] => ([], none)
  | c :: r =>
      if t c then ([], some r)
      else
        let p := breakAtChar t r
        (c :: p.1, p.2)

/-- Modelled from the spec: `rust_decimal`'s string parser (`FromStr`), used
for all Decimal promotion from text.  Optional sign, digits with optional
underscores and at most one decimal point, no exponent notation; fractional
digits beyond the representable range (scale ≤ 28, 96-bit mantissa) are
dropped with rounding, while an unrepresentable integral magnitude is an
error. -/
def Dec.fromStr (cs : Str) : Option Dec :=
  let signSplit := splitSign cs
  let rest := signSplit.2.filter (fun c => c != '_')
  let p := breakAtChar (fun c => c == '.') rest
  let ip := p.1
  let fp := (p.2).getD []
  if fp.contains '.' then none
  else if ip.all Char.isDigit ∧ fp.all Char.isDigit ∧ (ip ++ fp) ≠ [] then
    let M : ℤ := (charsToNat (ip ++ fp) : ℤ)
    Dec.reduceFit fp.length (if signSplit.1 then -M else M)
  else none

/-- Modelled from the spec: Rust `f64::from_str`, restricted to the shapes
the coercion utilities feed it: optional sign; `inf`/`infinity`/`nan`
keywords (case-insensitive); otherwise decimal digits with at most one point
and an optional exponent.  The finite value is kept exact (binary rounding is
not modelled; no claim inspects a rounded parse result). -/
def parseF64 (cs : Str) : Option F64 :=
  let signSplit := splitSign cs
  let neg := signSplit.1
  let low := signSplit.2.map Char.toLower
  if low = ['i', 'n', 'f'] ∨ low = ['i', 'n', 'f', 'i', 'n', 'i', 't', 'y'] then
    some (if neg then .neginf else .inf)
  else if low = ['n', 'a', 'n'] then some .nan
  else
    let pe := breakAtChar (fun c => c == 'e' || c == 'E') signSplit.2
    let pd := breakAtChar (fun c => c == '.') pe.1
    let ip := pd.1
    let fp := (pd.2).getD []
    if fp.contains '.' then none
    else if ip.all Char.isDigit ∧ fp.all Char.isDigit ∧ (ip ++ fp) ≠ [] then
      let mq : ℚ := mkRat (charsToNat (ip ++ fp) : ℤ) (10 ^ fp.length)
      let base : ℚ := if neg then -mq else mq
      match pe.2 with
      | none => some (.finite base)
      | some ecs =>
          let es := splitSign ecs
          if es.2 ≠ [] ∧ es.2.all Char.isDigit then
            let e : ℕ := charsToNat es.2
            some (.finite (if es.1 then base / 10 ^ e else base * 10 ^ e))
          else none
    else none

/-! ## Numeric coercion and the JSON codec -/

/-- The fast-bailout first-character test of `parse_numeric`: digit, sign or
point. -/
def firstNumericChar : Str → Bool
  | [] => false
  | c :: _ => c.isDigit || c == '-' || c == '+' || c == '.'

mutual

/-- `Value::parse_numeric` from `serde.rs`: recursive string→number
promotion.  (The UTF-8 validity check of the source is vacuous here because
byte strings are embedded as character lists.) -/
def parseNumeric (v : Value) (useDecimal : Bool) : Value :=
  match v with
  | .bytes b =>
      let s := trimChars b
      if !firstNumericChar s then .bytes b
      else
        match (if s.contains '.' then none else parseI64 s) with
        | some n => .integer n
        | none =>
            if useDecimal then
              match Dec.fromStr s with
              | some d => .decimal d
              | none => .bytes b
            else
              match parseF64 s with
              | some f =>
                  match notNanNew f with
                  | some f2 => .float f2
                  | none => .bytes b
              | none => .bytes b
  | .array l => .array (parseNumericList l useDecimal)
  | .object o => .object (parseNumericObj o useDecimal)
  | other => other

/-- Element-wise promotion of an array. -/
def parseNumericList (l : List Value) (useDecimal : Bool) : List Value :=
  match l with
  | [] => []
  | v :: r => parseNumeric v useDecimal :: parseNumericList r useDecimal

/-- Element-wise promotion of an object's values. -/
def parseNumericObj (o : List (Str × Value)) (useDecimal : Bool) :
    List (Str × Value) :=
  match o with
  | [] => []
  | (k, v) :: r => (k, parseNumeric v useDecimal) :: parseNumericObj r useDecimal

end

/-- `parse_number` from the precision-preserving `TryFrom<&RawValue>`
conversion in `serde.rs`: a token without `.`, `e`, `E` that parses as `i64`
becomes `Integer`; every other token is handed to the Decimal parser, the
error carrying the offending token. -/
def parseNumberRaw (cs : Str) : Except Str Value :=
  match (if cs.contains '.' || cs.contains 'e' || cs.contains 'E'
         then none else parseI64 cs) with
  | some n => .ok (.integer n)
  | none =>
      match Dec.fromStr cs with
      | some d => .ok (.decimal d)
      | none => .error ("failed to parse number: ".toList ++ cs)

/-- Modelled from the spec: `Decimal::to_string`, printing the exact
representation with all `s` fractional digits (trailing zeros kept). -/
def Dec.toChars (d : Dec) : Str :=
  let chars := (padZeros (d.s + 1) (digitsBE d.m.natAbs)).map digitChar
  (if d.m < 0 then ['-'] else []) ++
    (if d.s = 0 then chars
     else chars.take (chars.length - d.s) ++ '.' :: chars.drop (chars.length - d.s))

/-- The numeric arms of the JSON `Serialize` impl in `serde.rs`: integers
serialize as their decimal text; a Decimal with zero fractional part that
fits `i64` serializes as a plain JSON integer; any other Decimal is emitted
raw from its exact string form (never through an f64).  Non-numeric variants
are serialized by the external serde_json machinery and are outside the
modelled fragment. -/
def serializeNumber : Value → Option Str
  | .integer n => some (intToChars n)
  | .decimal d =>
      if d.fractIsZero then
        match d.tryToI64 with
        | some i => some (intToChars i)
        | none => some d.toChars
      else some d.toChars
  | _ => none

/-- `validate_depth` from `parse_json.rs`: coerce the argument to an integer,
convert to `u8`, and require the inclusive range `1..=128`.  (The non-integer
and out-of-`u8` rejections surface the underlying conversion errors; their
exact messages come from external crates and are abbreviated here.) -/
def validateDepth (v : Value) : Except Str ℕ :=
  match v with
  | .integer n =>
      if 0 ≤ n ∧ n ≤ 255 then
        let r := n.toNat
        if 1 ≤ r ∧ r ≤ 128 then .ok r
        else
          .error ("max_depth value should be greater than 0 and less than 128, got ".toList
            ++ natToChars r)
      else .error "out of range integral type conversion attempted".toList
  | _ => .error "expected integer".toList

/-! ## Lossy equality -/

/-- The smallest scale (at most 28) whose power of ten the denominator
divides, if any. -/
def decScaleFor (den : ℕ) : Option ℕ :=
  (List.range 29).find? (fun s => decide (den ∣ 10 ^ s))

/-- Modelled from the spec: the checked `f64 → Decimal` conversion
(`Decimal::try_from`), which fails when the float is outside the target's
representable range (non-finite values included). -/
def Dec.tryFromF64 : F64 → Option Dec
  | .finite q =>
      match decScaleFor q.den with
      | some s =>
          let m := q.num * ((10 ^ s : ℤ) / (q.den : ℤ))
          if m.natAbs ≤ decMaxMantissa then some ⟨m, s⟩ else none
      | none => none
  | _ => none

mutual

/-- The derived structural `PartialEq` on `Value`; decimals and floats
compare by value, as their Rust `PartialEq` impls do. -/
def valueBeq : Value → Value → Bool
  | .null, .null => true
  | .boolean a, .boolean b => decide (a = b)
  | .integer a, .integer b => decide (a = b)
  | .float a, .float b => f64eq a b
  | .decimal a, .decimal b => Dec.valEq a b
  | .bytes a, .bytes b => decide (a = b)
  | .timestamp a, .timestamp b => decide (a = b)
  | .regex a, .regex b => decide (a = b)
  | .array a, .array b => listBeq a b
  | .object a, .object b => objBeq a b
  | _, _ => false

/-- Element-wise structural equality of arrays. -/
def listBeq : List Value → List Value → Bool
  | [], [] => true
  | a :: xs, b :: ys => valueBeq a b && listBeq xs ys
  | _, _ => false

/-- Entry-wise structural equality of objects. -/
def objBeq : List (Str × Value) → List (Str × Value) → Bool
  | [], [] => true
  | (k1, v1) :: r1, (k2, v2) :: r2 => decide (k1 = k2) && valueBeq v1 v2 && objBeq r1 r2
  | _, _ => false

end

/-- `Value::eq_lossy`: cross-type numeric equality (Decimal preferred as the
common ground, f64 otherwise), with exact structural equality as the
non-numeric fallback. -/
def eqLossy (a b : Value) : Bool :=
  match a, b with
  | .decimal l, .decimal r => Dec.valEq l r
  | .decimal l, .integer r => Dec.valEq l (Dec.fromInt r)
  | .integer l, .decimal r => Dec.valEq (Dec.fromInt l) r
  | .decimal l, .float r =>
      match Dec.tryFromF64 r with
      | some rd => Dec.valEq l rd
      | none => false
  | .float l, .decimal r =>
      match Dec.tryFromF64 l with
      | some ld => Dec.valEq ld r
      | none => false
  | .integer l, .float r => f64eq (intToF64 l) r
  | .float l, .integer r => f64eq l (intToF64 r)
  | .float l, .float r => f64eq l r
  | .integer l, .integer r => decide (l = r)
  | _, _ => valueBeq a b

/-! ## Well-formed numeric tokens -/

/-- The text of a signed decimal token with explicit integer and fractional
digit lists (the shape of a JSON number literal without an exponent). -/
def renderDecToken (neg : Bool) (ip fp : List ℕ) : Str :=
  (if neg then ['-'] else []) ++ ip.map digitChar ++ '.' :: fp.map digitChar

/-- The text of a signed integer token. -/
def renderIntToken (neg : Bool) (ip : List ℕ) : Str :=
  (if neg then ['-'] else []) ++ ip.map digitChar

/-- A well-formed JSON integer part: nonempty decimal digits without a
superfluous leading zero. -/
@[reducible] def wfIntDigits (ip : List ℕ) : Prop :=
  ip ≠ [] ∧ (∀ d ∈ ip, d < 10) ∧ (ip.head? = some 0 → ip = [0])

/-- A well-formed fractional part: nonempty decimal digits. -/
@[reducible] def wfFracDigits (fp : List ℕ) : Prop := fp ≠ [] ∧ ∀ d ∈ fp, d < 10

/-- Structural induction over `Value` with membership hypotheses for the
nested containers. -/
def Value.inductionOn {P : Value → Prop}
    (hnull : P .null) (hbool : ∀ b, P (.boolean b)) (hint : ∀ n, P (.integer n))
    (hfloat : ∀ f, P (.float f)) (hdec : ∀ d, P (.decimal d))
    (hbytes : ∀ s, P (.bytes s)) (hts : ∀ t, P (.timestamp t)) (hre : ∀ r, P (.regex r))
    (harr : ∀ l, (∀ v ∈ l, P v) → P (.array l))
    (hobj : ∀ o, (∀ p ∈ o, P p.2) → P (.object o)) :
    ∀ v, P v
  | .null => hnull
  | .boolean b => hbool b
  | .integer n => hint n
  | .float f => hfloat f
  | .decimal d => hdec d
  | .bytes s => hbytes s
  | .timestamp t => hts t
  | .regex r => hre r
  | .array l => harr l fun v hv =>
      have : sizeOf v < 1 + sizeOf l := by
        have h1 := List.sizeOf_lt_of_mem hv
        omega
      Value.inductionOn hnull hbool hint hfloat hdec hbytes hts hre harr hobj v
  | .object o => hobj o fun p hp =>
      have : sizeOf p.2 < 1 + sizeOf o := by
        have h1 := List.sizeOf_lt_of_mem hp
        have h2 : sizeOf p.2 < sizeOf p := by
          obtain ⟨a, b⟩ := p
          simp only [Prod.mk.sizeOf_spec]
          omega
        omega
      Value.inductionOn hnull hbool hint hfloat hdec hbytes hts hre harr hobj p.2
termination_by v => sizeOf v

lemma noNanResult_ok_fromF64OrZero (x : F64) :
    noNanResult (.ok (fromF64OrZero x)) = true := by
  cases x <;> rfl

/-! ## Claims about the arithmetic engine -/

/-- C1 (counterexample): dividing the numeric value `Float(1.0)` by the
zero-valued divisor `Decimal(0)` yields the type-mismatch error
`Div(float, decimal)` — not the distinguished `DivideByZero` — because
`try_into_f64` does not support Decimal.  This refutes the claim that every
numeric dividend with a zero-valued divisor produces `DivideByZero`
"regardless of the operand kind combination". -/
theorem c1_zero_division_counterexample :
    tryDiv (.float (.finite 1)) (.decimal ⟨0, 0⟩) = .error (.div .float .decimal) ∧
    ValueError.div .float .decimal ≠ .divideByZero :=
  ⟨rfl, by decide⟩

/-- C1 (amended): for every numeric dividend and zero-valued divisor whose
pair is not the rejected Float-with-Decimal mix (in either order), `try_div`
and `try_rem` return the distinguished `DivideByZero` error. -/
theorem c1_zero_division_amended :
    (∀ n : ℤ,
      tryDiv (.integer n) (.integer 0) = .error .divideByZero ∧
      tryRem (.integer n) (.integer 0) = .error .divideByZero ∧
      tryDiv (.integer n) (.float (.finite 0)) = .error .divideByZero ∧
      tryRem (.integer n) (.float (.finite 0)) = .error .divideByZero ∧
      ∀ s : ℕ,
        tryDiv (.integer n) (.decimal ⟨0, s⟩) = .error .divideByZero ∧
        tryRem (.integer n) (.decimal ⟨0, s⟩) = .error .divideByZero) ∧
    (∀ f : F64,
      tryDiv (.float f) (.integer 0) = .error .divideByZero ∧
      tryRem (.float f) (.integer 0) = .error .divideByZero ∧
      tryDiv (.float f) (.float (.finite 0)) = .error .divideByZero ∧
      tryRem (.float f) (.float (.finite 0)) = .error .divideByZero) ∧
    (∀ d : Dec,
      tryDiv (.decimal d) (.integer 0) = .error .divideByZero ∧
      tryRem (.decimal d) (.integer 0) = .error .divideByZero ∧
      ∀ s : ℕ,
        tryDiv (.decimal d) (.decimal ⟨0, s⟩) = .error .divideByZero ∧
        tryRem (.decimal d) (.decimal ⟨0, s⟩) = .error .divideByZero) := by
  refine ⟨fun n => ⟨?_, ?_, ?_, ?_, fun s => ⟨?_, ?_⟩⟩,
          fun f => ⟨?_, ?_, ?_, ?_⟩,
          fun d => ⟨?_, ?_, fun s => ⟨?_, ?_⟩⟩⟩ <;>
    simp [tryDiv, tryRem, Value.tryIntoF64, Value.tryIntoDecimal, intToF64,
      f64eq, Dec.isZero, Dec.fromInt]

/-- C2 (confirmed): for every finite float `x` and every decimal `y`, each of
`try_add`, `try_sub`, `try_mul` and `try_div` rejects the pair
`Float(x) ⊗ Decimal(y)` with the corresponding type-mismatch error,
regardless of the magnitudes involved. -/
theorem c2_float_with_decimal_always_rejected (q : ℚ) (d : Dec) :
    tryAdd (.float (.finite q)) (.decimal d) = .error (.add .float .decimal) ∧
    trySub (.float (.finite q)) (.decimal d) = .error (.sub .float .decimal) ∧
    tryMul (.float (.finite q)) (.decimal d) = .error (.mul .float .decimal) ∧
    tryDiv (.float (.finite q)) (.decimal d) = .error (.div .float .decimal) :=
  ⟨rfl, rfl, rfl, rfl⟩

/-- C3 (confirmed): Integer⊗Integer add/sub/mul always succeed with the
two's-complement wrapping result, while Decimal arithmetic is checked:
`Decimal::MAX + 1`, `Decimal::MIN - 1` and `Decimal::MAX * 2` all error. -/
theorem c3_wrapping_vs_checked_split :
    (∀ a b : ℤ, inI64 a → inI64 b →
      tryAdd (.integer a) (.integer b) = .ok (.integer (wrap64 (a + b))) ∧
      trySub (.integer a) (.integer b) = .ok (.integer (wrap64 (a - b))) ∧
      tryMul (.integer a) (.integer b) = .ok (.integer (wrap64 (a * b)))) ∧
    tryAdd (.decimal Dec.MAX) (.decimal ⟨1, 0⟩) = .error (.add .decimal .decimal) ∧
    trySub (.decimal Dec.MIN) (.decimal ⟨1, 0⟩) = .error (.sub .decimal .decimal) ∧
    tryMul (.decimal Dec.MAX) (.decimal ⟨2, 0⟩) = .error (.mul .decimal .decimal) := by
  refine ⟨fun a b _ _ => ⟨rfl, rfl, rfl⟩, ?_, ?_, ?_⟩ <;> rfl

/-- Witness for C3 at a concrete overflowing input: `i64::MAX + 1` wraps to
`i64::MIN`. -/
theorem c3_wrapping_vs_checked_split_witness :
    inI64 (2 ^ 63 - 1) ∧ inI64 1 ∧
    tryAdd (.integer (2 ^ 63 - 1)) (.integer 1) = .ok (.integer (-(2 ^ 63))) := by
  refine ⟨by constructor <;> norm_num [inI64], by constructor <;> norm_num [inI64], ?_⟩
  have h := (c3_wrapping_vs_checked_split.1 (2 ^ 63 - 1) 1
    (by constructor <;> norm_num [inI64]) (by constructor <;> norm_num [inI64])).1
  rw [h, show wrap64 ((2 : ℤ) ^ 63 - 1 + 1) = -(2 ^ 63) by decide]

/-- C5 (counterexample): `try_div` on `Float(∞) / Float(∞)`, whose
floating-point computation produces NaN, does not return an error — it embeds
the substitute value `0.0` (via `from_f64_or_zero`).  This refutes the claim
that every NaN-producing arithmetic operation returns an explicit error. -/
theorem c5_nan_policy_counterexample :
    tryDiv (.float .inf) (.float .inf) = .ok (.float (.finite 0)) ∧
    ¬∃ e, tryDiv (.float .inf) (.float .inf) = .error e := by
  refine ⟨rfl, ?_⟩
  rintro ⟨e, he⟩
  rw [show tryDiv (.float .inf) (.float .inf) = .ok (.float (.finite 0)) from rfl] at he
  exact Except.noConfusion he

/-- C5 (amended): a Float value never holds NaN at construction (`NotNan`
rejects it and `from_f64_or_zero` normalizes it to zero), and float
subtraction reports a NaN result as an error; but `try_div` (and the other
paths built on `from_f64_or_zero`) substitute `0.0` for a NaN result instead
of erroring.  Neither operation ever embeds NaN itself into a Value. -/
theorem c5_nan_policy_amended :
    fromF64OrZero .nan = .float (.finite 0) ∧
    notNanNew .nan = none ∧
    (∀ f g : F64, noNanResult (trySub (.float f) (.float g)) = true) ∧
    (∀ f g : F64, noNanResult (tryDiv (.float f) (.float g)) = true) ∧
    trySub (.float .inf) (.float .inf) = .error (.sub .float .float) ∧
    tryDiv (.float .inf) (.float .inf) = .ok (.float (.finite 0)) := by
  refine ⟨rfl, rfl, fun f g => ?_, fun f g => ?_, rfl, rfl⟩
  · show noNanResult (match safeSub f g with
      | some v => .ok v
      | none => .error (.sub .float .float)) = true
    unfold safeSub
    by_cases h : f64sub f g = .nan <;>
      simp only [h, if_pos, if_neg, ite_true, ite_false, reduceIte]
    · rfl
    · exact noNanResult_ok_fromF64OrZero _
  · show noNanResult (if f64eq g (.finite 0) then .error .divideByZero
      else .ok (fromF64OrZero (f64div f g))) = true
    by_cases h : f64eq g (.finite 0) = true <;> simp only [h, reduceIte, ite_false, ite_true]
    · rfl
    · rw [if_neg (by simp [h])]
      exact noNanResult_ok_fromF64OrZero _

/-- C6 (counterexample): `try_and` with a `Null` left operand returns
`Ok(false)` without even inspecting the right operand, so
`Null && Integer(5)` succeeds although the right operand is neither Boolean
nor Null.  This refutes the claim that any non-boolean, non-null operand on
either side errors. -/
theorem c6_and_counterexample :
    tryAnd .null (.integer 5) = .ok (.boolean false) := rfl

/-- C6 (amended): a `Null` left operand short-circuits to `false` regardless
of the right operand; a Boolean left operand requires the right operand to be
Boolean or Null (Null treated as false) and errors otherwise; any other left
operand errors.  Hence `try_and` succeeds exactly when the left operand is
Null, or the left operand is Boolean and the right operand is Boolean or
Null. -/
theorem c6_and_amended :
    (∀ b : Value, tryAnd .null b = .ok (.boolean false)) ∧
    (∀ l : Bool, tryAnd (.boolean l) .null = .ok (.boolean false)) ∧
    (∀ l r : Bool, tryAnd (.boolean l) (.boolean r) = .ok (.boolean (l && r))) ∧
    (∀ a b : Value, (∃ v, tryAnd a b = .ok v) ↔
      (a = .null ∨ ((∃ l, a = .boolean l) ∧ (b = .null ∨ ∃ r, b = .boolean r)))) := by
  refine ⟨fun b => rfl, fun l => rfl, fun l r => rfl, fun a b => ?_⟩
  cases a <;> cases b <;> simp [tryAnd]

/-! ## Claims about the bounded-depth parse -/

/-- C8 (confirmed): `validate_depth` accepts an integer `max_depth` exactly
when it lies in the inclusive range `1..=128`, and both out-of-range boundary
values 0 and 129 are rejected with the descriptive range error. -/
theorem c8_max_depth_range :
    (∀ n : ℤ, (∃ d, validateDepth (.integer n) = .ok d) ↔ (1 ≤ n ∧ n ≤ 128)) ∧
    validateDepth (.integer 0) =
      .error ("max_depth value should be greater than 0 and less than 128, got 0".toList) ∧
    validateDepth (.integer 129) =
      .error ("max_depth value should be greater than 0 and less than 128, got 129".toList) := by
  refine ⟨fun n => ⟨?_, ?_⟩, rfl, rfl⟩
  · rintro ⟨d, hd⟩
    simp only [validateDepth] at hd
    split_ifs at hd with h1 h2
    omega
  · intro h
    refine ⟨n.toNat, ?_⟩
    simp only [validateDepth]
    rw [if_pos ⟨by omega, by omega⟩, if_pos ⟨by omega, by omega⟩]

/-! ## Lossy-equality claims -/

lemma decideEqSymm {α : Type} [DecidableEq α] (a b : α) :
    decide (a = b) = decide (b = a) := by
  by_cases h : a = b
  · subst h; rfl
  · rw [decide_eq_false h, decide_eq_false (fun hh => h hh.symm)]

lemma f64eq_symm (a b : F64) : f64eq a b = f64eq b a := by
  cases a <;> cases b <;> first | rfl | exact decideEqSymm _ _

lemma decValEq_symm (a b : Dec) : Dec.valEq a b = Dec.valEq b a :=
  decideEqSymm (a.m * 10 ^ b.s) (b.m * 10 ^ a.s)

lemma listBeq_symm_of :
    ∀ l1 l2 : List Value, (∀ v ∈ l1, ∀ b, valueBeq v b = valueBeq b v) →
      listBeq l1 l2 = listBeq l2 l1 := by
  intro l1
  induction l1 with
  | nil => intro l2 _; cases l2 <;> rfl
  | cons x xs ihl =>
      intro l2 ih
      cases l2 with
      | nil => rfl
      | cons y ys =>
          show (valueBeq x y && listBeq xs ys) = (valueBeq y x && listBeq ys xs)
          rw [ih x (List.mem_cons_self _ _) y,
            ihl ys (fun v hv b => ih v (List.mem_cons_of_mem _ hv) b)]

lemma objBeq_symm_of :
    ∀ o1 o2 : List (Str × Value), (∀ p ∈ o1, ∀ b, valueBeq p.2 b = valueBeq b p.2) →
      objBeq o1 o2 = objBeq o2 o1 := by
  intro o1
  induction o1 with
  | nil => intro o2 _; cases o2 <;> rfl
  | cons x xs ihl =>
      intro o2 ih
      cases o2 with
      | nil => obtain ⟨k, v⟩ := x; rfl
      | cons y ys =>
          obtain ⟨k1, v1⟩ := x
          obtain ⟨k2, v2⟩ := y
          show (decide (k1 = k2) && valueBeq v1 v2 && objBeq xs ys)
             = (decide (k2 = k1) && valueBeq v2 v1 && objBeq ys xs)
          rw [decideEqSymm k1 k2, ih ⟨k1, v1⟩ (List.mem_cons_self _ _) v2,
            ihl ys (fun p hp b => ih p (List.mem_cons_of_mem _ hp) b)]

lemma valueBeq_symm : ∀ a b : Value, valueBeq a b = valueBeq b a := by
  intro a
  induction a using Value.inductionOn with
  | hnull => intro b; cases b <;> rfl
  | hbool x => intro b; cases b <;> first | rfl | exact decideEqSymm _ _
  | hint x => intro b; cases b <;> first | rfl | exact decideEqSymm _ _
  | hfloat x => intro b; cases b <;> first | rfl | exact f64eq_symm _ _
  | hdec x => intro b; cases b <;> first | rfl | exact decValEq_symm _ _
  | hbytes x => intro b; cases b <;> first | rfl | exact decideEqSymm _ _
  | hts x => intro b; cases b <;> first | rfl | exact decideEqSymm _ _
  | hre x => intro b; cases b <;> first | rfl | exact decideEqSymm _ _
  | harr l ih => intro b; cases b <;> first | rfl | exact listBeq_symm_of l _ ih
  | hobj o ih => intro b; cases b <;> first | rfl | exact objBeq_symm_of o _ ih

lemma eqLossy_float_decimal_symm (f : F64) (d : Dec) :
    eqLossy (.float f) (.decimal d) = eqLossy (.decimal d) (.float f) := by
  show (match Dec.tryFromF64 f with
        | some ld => Dec.valEq ld d
        | none => false)
     = (match Dec.tryFromF64 f with
        | some rd => Dec.valEq d rd
        | none => false)
  cases Dec.tryFromF64 f with
  | none => rfl
  | some x => exact decValEq_symm _ _

/-- C10 (confirmed): `eq_lossy` is total (it is a Boolean function) and
symmetric, and a Float compared against a Decimal yields `false` — rather
than an error — whenever the float has no exact Decimal representation. -/
theorem c10_eq_lossy_total_symmetric :
    (∀ a b : Value, eqLossy a b = eqLossy b a) ∧
    (∀ (f : F64) (d : Dec), Dec.tryFromF64 f = none →
      eqLossy (.float f) (.decimal d) = false ∧
      eqLossy (.decimal d) (.float f) = false) := by
  constructor
  · intro a b
    cases a <;> cases b <;>
      first
        | rfl
        | exact decideEqSymm _ _
        | exact f64eq_symm _ _
        | exact decValEq_symm _ _
        | exact eqLossy_float_decimal_symm _ _
        | exact (eqLossy_float_decimal_symm _ _).symm
        | exact valueBeq_symm _ _
  · intro f d h
    constructor <;> simp [eqLossy, h]

/-- Witness for C10 at a concrete input: the float `1/3` has no exact Decimal
representation, and comparing it against a Decimal yields `false`. -/
theorem c10_eq_lossy_total_symmetric_witness :
    Dec.tryFromF64 (.finite (mkRat 1 3)) = none ∧
    eqLossy (.float (.finite (mkRat 1 3))) (.decimal ⟨1, 0⟩) = false := by
  have h : Dec.tryFromF64 (.finite (mkRat 1 3)) = none := by decide
  exact ⟨h, (c10_eq_lossy_total_symmetric.2 _ _ h).1⟩

/-! ## Digit-list arithmetic -/

lemma ofDigitsBE_go (ds : List ℕ) (a : ℕ) :
    ds.foldl (fun x d => 10 * x + d) a = a * 10 ^ ds.length + Nat.ofDigits 10 ds.reverse := by
  induction ds generalizing a with
  | nil => simp [Nat.ofDigits]
  | cons d tl ih =>
      simp only [List.foldl_cons, List.reverse_cons, List.length_cons]
      rw [ih, Nat.ofDigits_append]
      simp [Nat.ofDigits, pow_succ]
      ring

lemma ofDigitsBE_eq (ds : List ℕ) : ofDigitsBE ds = Nat.ofDigits 10 ds.reverse := by
  unfold ofDigitsBE
  rw [ofDigitsBE_go]
  simp

lemma ofDigitsBE_append (l1 l2 : List ℕ) :
    ofDigitsBE (l1 ++ l2) = ofDigitsBE l1 * 10 ^ l2.length + ofDigitsBE l2 := by
  rw [ofDigitsBE_eq, ofDigitsBE_eq, ofDigitsBE_eq, List.reverse_append, Nat.ofDigits_append]
  simp only [List.length_reverse]
  ring

lemma ofDigitsBE_lt (ds : List ℕ) (h : ∀ d ∈ ds, d < 10) :
    ofDigitsBE ds < 10 ^ ds.length := by
  rw [ofDigitsBE_eq]
  have := Nat.ofDigits_lt_base_pow_length (b := 10) (l := ds.reverse) (by norm_num)
    (fun x hx => h x (List.mem_reverse.mp hx))
  simpa using this

lemma ofDigits_replicate_zero (k : ℕ) : Nat.ofDigits 10 (List.replicate k 0) = 0 := by
  induction k with
  | zero => rfl
  | succ n ih => rw [List.replicate_succ, Nat.ofDigits_cons, ih]

lemma ofDigitsBE_ne_zero (ds : List ℕ) (h : ∃ d ∈ ds, d ≠ 0) : ofDigitsBE ds ≠ 0 := by
  rw [ofDigitsBE_eq]
  intro h0
  obtain ⟨d, hd, hdne⟩ := h
  exact hdne (Nat.digits_zero_of_eq_zero (by norm_num) h0 d (List.mem_reverse.mpr hd))

lemma takeWhile_zeros_replicate (ds : List ℕ) :
    ds.takeWhile (fun d => d == 0) =
      List.replicate (ds.takeWhile (fun d => d == 0)).length 0 := by
  induction ds with
  | nil => rfl
  | cons d tl ih =>
      rw [List.takeWhile_cons]
      by_cases h : d = 0
      · subst h
        rw [if_pos (by decide)]
        rw [List.length_cons, List.replicate_succ]
        exact congrArg _ ih
      · rw [if_neg (by simp [h])]
        rfl

lemma digitsAuxBE_eq (fuel : ℕ) : ∀ n : ℕ, n ≤ fuel →
    digitsAuxBE fuel n = (Nat.digits 10 n).reverse := by
  induction fuel with
  | zero =>
      intro n hn
      have : n = 0 := by omega
      subst this
      simp [digitsAuxBE]
  | succ f ih =>
      intro n hn
      cases n with
      | zero => simp [digitsAuxBE]
      | succ m =>
          rw [digitsAuxBE, ih ((m + 1) / 10) (by
            have := Nat.div_lt_self (Nat.succ_pos m) (by norm_num : (1 : ℕ) < 10)
            omega)]
          rw [Nat.digits_def' (by norm_num : (1 : ℕ) < 10) (Nat.succ_pos m)]
          simp

lemma digitsBE_eq_digits (n : ℕ) : digitsBE n = (Nat.digits 10 n).reverse :=
  digitsAuxBE_eq n n le_rfl

lemma digitsBE_ofDigitsBE (ds : List ℕ) (h : ∀ d ∈ ds, d < 10) :
    digitsBE (ofDigitsBE ds) = ds.dropWhile (fun d => d == 0) := by
  rw [digitsBE_eq_digits, ofDigitsBE_eq]
  have hsplit :
      ds.reverse = (ds.dropWhile (fun d => d == 0)).reverse ++
        List.replicate (ds.takeWhile (fun d => d == 0)).length 0 := by
    conv_lhs => rw [← List.takeWhile_append_dropWhile (fun d => d == 0) ds]
    rw [List.reverse_append]
    congr 1
    rw [takeWhile_zeros_replicate ds]
    simp [List.reverse_replicate]
  rw [hsplit, Nat.ofDigits_append, ofDigits_replicate_zero, mul_zero, add_zero]
  by_cases hAnil : ds.dropWhile (fun d => d == 0) = []
  · simp [hAnil, Nat.ofDigits]
  · have hrev : (ds.dropWhile (fun d => d == 0)).reverse ≠ [] := by
      simpa using hAnil
    rw [Nat.digits_ofDigits 10 (by norm_num) _
      (fun x hx => h x ((List.dropWhile_sublist _).mem (List.mem_reverse.mp hx)))
      (fun hne => by
        rw [List.getLast_reverse]
        have := List.head_dropWhile_not (fun d => d == 0) ds hAnil
        simpa using this)]
    simp

lemma padZeros_dropWhile (ds : List ℕ) :
    padZeros ds.length (ds.dropWhile (fun d => d == 0)) = ds := by
  unfold padZeros
  conv_rhs => rw [← List.takeWhile_append_dropWhile (fun d => d == 0) ds]
  congr 1
  rw [takeWhile_zeros_replicate ds]
  congr 1
  have := congrArg List.length (List.takeWhile_append_dropWhile (fun d => d == 0) ds)
  simp only [List.length_append] at this
  omega

lemma digitChar_props (d : ℕ) (h : d < 10) :
    digitVal (digitChar d) = d ∧ (digitChar d).isDigit = true ∧
    digitChar d ≠ '-' ∧ digitChar d ≠ '+' ∧ digitChar d ≠ '.' ∧ digitChar d ≠ '_' ∧
    digitChar d ≠ 'e' ∧ digitChar d ≠ 'E' := by
  interval_cases d <;> exact (by decide)

lemma map_digitVal_digitChar (ds : List ℕ) (h : ∀ d ∈ ds, d < 10) :
    (ds.map digitChar).map digitVal = ds := by
  induction ds with
  | nil => rfl
  | cons d tl ih =>
      simp only [List.map_cons, List.cons.injEq]
      exact ⟨(digitChar_props d (h d (List.mem_cons_self _ _))).1,
        ih (fun x hx => h x (List.mem_cons_of_mem _ hx))⟩

lemma charsToNat_map (ds : List ℕ) (h : ∀ d ∈ ds, d < 10) :
    charsToNat (ds.map digitChar) = ofDigitsBE ds := by
  unfold charsToNat
  rw [map_digitVal_digitChar ds h]

lemma all_isDigit_map (ds : List ℕ) (h : ∀ d ∈ ds, d < 10) :
    (ds.map digitChar).all Char.isDigit = true := by
  rw [List.all_eq_true]
  intro c hc
  obtain ⟨d, hd, rfl⟩ := List.mem_map.mp hc
  exact (digitChar_props d (h d hd)).2.1

/-! ## Parsing and printing rendered tokens -/

lemma splitSign_neg (r : Str) : splitSign ('-' :: r) = (true, r) := by
  simp [splitSign]

lemma splitSign_plus (r : Str) : splitSign ('+' :: r) = (false, r) := by
  simp [splitSign]

lemma splitSign_cons (c : Char) (r : Str) (h1 : c ≠ '-') (h2 : c ≠ '+') :
    splitSign (c :: r) = (false, c :: r) := by
  simp [splitSign, h1, h2]

lemma contains_true_of_mem {l : Str} {a : Char} (h : a ∈ l) : l.contains a = true :=
  List.elem_eq_true_of_mem h

lemma contains_false_of_not_mem {l : Str} {a : Char} (h : a ∉ l) : l.contains a = false := by
  rw [Bool.eq_false_iff]
  intro hc
  exact h (List.elem_iff.mp hc)

lemma breakAtChar_sep (t : Char → Bool) (xs ys : Str) (sep : Char)
    (hxs : ∀ c ∈ xs, t c = false) (hsep : t sep = true) :
    breakAtChar t (xs ++ sep :: ys) = (xs, some ys) := by
  induction xs with
  | nil =>
      rw [List.nil_append, breakAtChar, if_pos hsep]
  | cons c r ih =>
      rw [List.cons_append, breakAtChar,
        if_neg (by simp [hxs c (List.mem_cons_self _ _)]),
        ih (fun x hx => hxs x (List.mem_cons_of_mem _ hx))]

lemma breakAtChar_found (t : Char → Bool) (cs : Str) (c : Char) (hc : c ∈ cs)
    (hct : t c = false) :
    c ∈ (breakAtChar t cs).1 ∨ ∃ r, (breakAtChar t cs).2 = some r ∧ c ∈ r := by
  induction cs with
  | nil => cases hc
  | cons x r ih =>
      rw [breakAtChar]
      by_cases hx : t x = true
      · rw [if_pos hx]
        rcases List.mem_cons.mp hc with rfl | hcr
        · rw [hct] at hx; cases hx
        · exact Or.inr ⟨r, rfl, hcr⟩
      · rw [if_neg hx]
        rcases List.mem_cons.mp hc with rfl | hcr
        · exact Or.inl (List.mem_cons_self _ _)
        · rcases ih hcr with h1 | ⟨rr, hrr, hcrr⟩
          · exact Or.inl (List.mem_cons_of_mem _ h1)
          · exact Or.inr ⟨rr, hrr, hcrr⟩

lemma filter_ne_underscore (cs : Str) (h : ∀ c ∈ cs, c ≠ '_') :
    cs.filter (fun c => c != '_') = cs :=
  List.filter_eq_self.mpr (fun c hc => by simp [h c hc])

lemma reduceFit_of_fit (s : ℕ) (m : ℤ) (h1 : m.natAbs ≤ decMaxMantissa) (h2 : s ≤ 28) :
    Dec.reduceFit s m = some ⟨m, s⟩ := by
  cases s with
  | zero => simp [Dec.reduceFit, h1]
  | succ t => simp [Dec.reduceFit, h1, h2]

lemma render_core_chars (ip fp : List ℕ) (hip : ∀ d ∈ ip, d < 10) (hfp : ∀ d ∈ fp, d < 10) :
    ∀ c ∈ ip.map digitChar ++ '.' :: fp.map digitChar,
      c = '.' ∨ ∃ d, d < 10 ∧ c = digitChar d := by
  intro c hc
  rcases List.mem_append.mp hc with h | h
  · obtain ⟨d, hd, rfl⟩ := List.mem_map.mp h
    exact Or.inr ⟨d, hip d hd, rfl⟩
  · rcases List.mem_cons.mp h with rfl | h2
    · exact Or.inl rfl
    · obtain ⟨d, hd, rfl⟩ := List.mem_map.mp h2
      exact Or.inr ⟨d, hfp d hd, rfl⟩

lemma splitSign_render_dec (neg : Bool) (ip fp : List ℕ) (hip : ∀ d ∈ ip, d < 10) :
    splitSign (renderDecToken neg ip fp) =
      (neg, ip.map digitChar ++ '.' :: fp.map digitChar) := by
  cases neg
  · simp only [renderDecToken, Bool.false_eq_true, if_false, List.nil_append]
    cases ip with
    | nil => exact splitSign_cons '.' _ (by decide) (by decide)
    | cons d tl =>
        have p := digitChar_props d (hip d (List.mem_cons_self _ _))
        simp only [List.map_cons, List.cons_append]
        exact splitSign_cons _ _ p.2.2.1 p.2.2.2.1
  · simp only [renderDecToken, if_true, List.singleton_append]
    exact splitSign_neg _

lemma fromStr_render (neg : Bool) (ip fp : List ℕ)
    (hip : ∀ d ∈ ip, d < 10) (hfp : ∀ d ∈ fp, d < 10) (hne : ip ++ fp ≠ []) :
    Dec.fromStr (renderDecToken neg ip fp) =
      Dec.reduceFit fp.length
        (if neg then -(ofDigitsBE (ip ++ fp) : ℤ) else (ofDigitsBE (ip ++ fp) : ℤ)) := by
  have hchars := render_core_chars ip fp hip hfp
  have hfilter : (ip.map digitChar ++ '.' :: fp.map digitChar).filter (fun c => c != '_')
      = ip.map digitChar ++ '.' :: fp.map digitChar := by
    apply filter_ne_underscore
    intro c hc
    rcases hchars c hc with rfl | ⟨d, hd, rfl⟩
    · decide
    · exact (digitChar_props d hd).2.2.2.2.2.1
  have hbreak : breakAtChar (fun c => c == '.') (ip.map digitChar ++ '.' :: fp.map digitChar)
      = (ip.map digitChar, some (fp.map digitChar)) := by
    apply breakAtChar_sep
    · intro c hc
      obtain ⟨d, hd, rfl⟩ := List.mem_map.mp hc
      exact beq_eq_false_iff_ne.mpr (digitChar_props d (hip d hd)).2.2.2.2.1
    · decide
  have hnodot : (fp.map digitChar).contains '.' = false := by
    apply contains_false_of_not_mem
    intro hmem
    obtain ⟨d, hd, hEq⟩ := List.mem_map.mp hmem
    exact (digitChar_props d (hfp d hd)).2.2.2.2.1 hEq
  have hnonempty : ip.map digitChar ++ fp.map digitChar ≠ [] := by
    rw [← List.map_append]
    intro h
    exact hne (List.map_eq_nil_iff.mp h)
  simp only [Dec.fromStr]
  rw [splitSign_render_dec neg ip fp hip]
  dsimp only
  rw [hfilter, hbreak]
  dsimp only [Option.getD_some]
  rw [hnodot]
  rw [if_neg (by simp)]
  rw [if_pos ⟨all_isDigit_map ip hip, all_isDigit_map fp hfp, hnonempty⟩]
  rw [← List.map_append,
    charsToNat_map _ (fun d hd => (List.mem_append.mp hd).elim (hip d) (hfp d))]
  simp

lemma pad_key (ip fp : List ℕ) (hip : wfIntDigits ip) :
    padZeros (fp.length + 1) ((ip ++ fp).dropWhile (fun d => d == 0)) = ip ++ fp := by
  obtain ⟨hne, hlt, hlead⟩ := hip
  cases ip with
  | nil => exact absurd rfl hne
  | cons d tl =>
      cases tl with
      | nil =>
          have hlen : fp.length + 1 = ((d :: []) ++ fp).length := by simp
          rw [hlen]
          exact padZeros_dropWhile _
      | cons d2 tl2 =>
          have hd0 : d ≠ 0 := by
            intro h0
            subst h0
            have := hlead rfl
            simp at this
          rw [show ((d :: d2 :: tl2) ++ fp).dropWhile (fun x => x == 0)
              = (d :: d2 :: tl2) ++ fp from by
            rw [List.cons_append, List.dropWhile_cons, if_neg (by simp [hd0])]]
          unfold padZeros
          rw [show (fp.length + 1) - ((d :: d2 :: tl2) ++ fp).length = 0 from by
            simp only [List.length_append, List.length_cons]
            omega]
          simp

lemma toChars_render (neg : Bool) (ip fp : List ℕ)
    (hip : wfIntDigits ip) (hfp : ∀ d ∈ fp, d < 10) (hfpne : fp ≠ [])
    (hM : neg = true → ofDigitsBE (ip ++ fp) ≠ 0) :
    Dec.toChars ⟨(if neg then -(ofDigitsBE (ip ++ fp) : ℤ) else (ofDigitsBE (ip ++ fp) : ℤ)),
        fp.length⟩
      = renderDecToken neg ip fp := by
  have hall : ∀ d ∈ ip ++ fp, d < 10 :=
    fun d hd => (List.mem_append.mp hd).elim (hip.2.1 d) (hfp d)
  have hpad : padZeros (fp.length + 1) (digitsBE (ofDigitsBE (ip ++ fp))) = ip ++ fp := by
    rw [digitsBE_ofDigitsBE _ hall]
    exact pad_key ip fp hip
  have hslen : fp.length ≠ 0 := by simpa using congrArg List.length |>.mt (by
    intro h
    exact hfpne (List.length_eq_zero.mp h))
  have htake : ((ip ++ fp).map digitChar).take (((ip ++ fp).map digitChar).length - fp.length)
      = ip.map digitChar := by
    rw [List.map_append]
    exact List.take_left' (by simp)
  have hdrop : ((ip ++ fp).map digitChar).drop (((ip ++ fp).map digitChar).length - fp.length)
      = fp.map digitChar := by
    rw [List.map_append]
    exact List.drop_left' (by simp)
  cases neg
  · simp only [Bool.false_eq_true, if_false] at hM ⊢
    unfold Dec.toChars
    dsimp only
    rw [Int.natAbs_ofNat, hpad, if_neg (by simp), if_neg hslen, htake, hdrop]
    simp [renderDecToken]
  · have hMne : ofDigitsBE (ip ++ fp) ≠ 0 := hM rfl
    simp only [if_true]
    unfold Dec.toChars
    dsimp only
    rw [Int.natAbs_neg, Int.natAbs_ofNat, hpad,
      if_pos (by
        have : 0 < ofDigitsBE (ip ++ fp) := Nat.pos_of_ne_zero hMne
        omega),
      if_neg hslen, htake, hdrop]
    simp [renderDecToken]

lemma not_dvd_renderM (ip fp : List ℕ) (hfp : ∀ d ∈ fp, d < 10)
    (hnz : ∃ d ∈ fp, d ≠ 0) (neg : Bool) :
    ¬ ((10 : ℤ) ^ fp.length ∣
        (if neg then -(ofDigitsBE (ip ++ fp) : ℤ) else (ofDigitsBE (ip ++ fp) : ℤ))) := by
  have hnatkey : ¬ (10 ^ fp.length ∣ ofDigitsBE (ip ++ fp)) := by
    intro hnat
    rw [ofDigitsBE_append] at hnat
    have hlt := ofDigitsBE_lt fp hfp
    have hne0 := ofDigitsBE_ne_zero fp hnz
    have hdvdF : 10 ^ fp.length ∣ ofDigitsBE fp :=
      (Nat.dvd_add_right (dvd_mul_left _ _)).mp hnat
    exact absurd (Nat.le_of_dvd (Nat.pos_of_ne_zero hne0) hdvdF) (not_le.mpr hlt)
  intro hdvd
  apply hnatkey
  have := Int.natAbs_dvd_natAbs.mpr hdvd
  rcases Bool.eq_false_or_eq_true neg with h | h <;> subst h <;>
    simpa [Int.natAbs_pow] using this

lemma M_ne_zero_of_frac (ip fp : List ℕ) (hnz : ∃ d ∈ fp, d ≠ 0) :
    ofDigitsBE (ip ++ fp) ≠ 0 := by
  rw [ofDigitsBE_append]
  have := ofDigitsBE_ne_zero fp hnz
  omega

lemma fromStr_none_of_bad_char (cs : Str) (c : Char) (hc : c ∈ cs)
    (h1 : c ≠ '-') (h2 : c ≠ '+') (h3 : c ≠ '_') (h4 : c.isDigit = false)
    (h5 : (c == '.') = false) :
    Dec.fromStr cs = none := by
  have hc2 : c ∈ (splitSign cs).2 := by
    cases cs with
    | nil => cases hc
    | cons x r =>
        by_cases hx1 : x = '-'
        · subst hx1
          rw [splitSign_neg]
          rcases List.mem_cons.mp hc with rfl | h
          · exact absurd rfl h1
          · exact h
        · by_cases hx2 : x = '+'
          · subst hx2
            rw [splitSign_plus]
            rcases List.mem_cons.mp hc with rfl | h
            · exact absurd rfl h2
            · exact h
          · rw [splitSign_cons x r hx1 hx2]
            exact hc
  have hc3 : c ∈ (splitSign cs).2.filter (fun x => x != '_') :=
    List.mem_filter.mpr ⟨hc2, by simp [h3]⟩
  rcases breakAtChar_found (fun x => x == '.') _ c hc3 h5 with hin | ⟨r, hr, hcr⟩
  · simp only [Dec.fromStr]
    by_cases hdot : ((breakAtChar (fun x => x == '.')
        ((splitSign cs).2.filter (fun x => x != '_'))).2.getD []).contains '.' = true
    · rw [if_pos hdot]
    · rw [if_neg hdot,
        if_neg (fun hcond =>
          absurd (List.all_eq_true.mp hcond.1 c hin) (by simp [h4]))]
  · simp only [Dec.fromStr]
    rw [hr]
    by_cases hdot : ((some r).getD ([] : Str)).contains '.' = true
    · rw [if_pos hdot]
    · rw [if_neg hdot,
        if_neg (fun hcond =>
          absurd (List.all_eq_true.mp hcond.2.1 c (by simpa using hcr)) (by simp [h4]))]

lemma splitSign_render_int (neg : Bool) (ip : List ℕ) (hip : ∀ d ∈ ip, d < 10)
    (hne : ip ≠ []) :
    splitSign (renderIntToken neg ip) = (neg, ip.map digitChar) := by
  cases neg
  · simp only [renderIntToken, Bool.false_eq_true, if_false, List.nil_append]
    cases ip with
    | nil => exact absurd rfl hne
    | cons d tl =>
        have p := digitChar_props d (hip d (List.mem_cons_self _ _))
        simp only [List.map_cons]
        exact splitSign_cons _ _ p.2.2.1 p.2.2.2.1
  · simp only [renderIntToken, if_true, List.singleton_append]
    exact splitSign_neg _

lemma parseI64_renderInt (neg : Bool) (ip : List ℕ) (hip : wfIntDigits ip)
    (hlo : -(2 ^ 63) ≤ (if neg then -(ofDigitsBE ip : ℤ) else (ofDigitsBE ip : ℤ)))
    (hhi : (if neg then -(ofDigitsBE ip : ℤ) else (ofDigitsBE ip : ℤ)) < 2 ^ 63) :
    parseI64 (renderIntToken neg ip) =
      some (if neg then -(ofDigitsBE ip : ℤ) else (ofDigitsBE ip : ℤ)) := by
  simp only [parseI64]
  rw [splitSign_render_int neg ip hip.2.1 hip.1]
  dsimp only
  rw [if_pos ⟨fun h => hip.1 (List.map_eq_nil_iff.mp h), all_isDigit_map ip hip.2.1⟩]
  rw [charsToNat_map ip hip.2.1]
  rw [if_pos ⟨hlo, hhi⟩]

lemma renderInt_chars (neg : Bool) (ip : List ℕ) :
    ∀ c ∈ renderIntToken neg ip, c = '-' ∨ ∃ d ∈ ip, c = digitChar d := by
  intro c hc
  cases neg
  · simp only [renderIntToken, Bool.false_eq_true, if_false, List.nil_append] at hc
    obtain ⟨d, hd, rfl⟩ := List.mem_map.mp hc
    exact Or.inr ⟨d, hd, rfl⟩
  · simp only [renderIntToken, if_true, List.singleton_append] at hc
    rcases List.mem_cons.mp hc with rfl | h
    · exact Or.inl rfl
    · obtain ⟨d, hd, rfl⟩ := List.mem_map.mp h
      exact Or.inr ⟨d, hd, rfl⟩

lemma renderInt_not_mem (neg : Bool) (ip : List ℕ) (hip : ∀ d ∈ ip, d < 10)
    (c : Char) (h1 : c ≠ '-') (h2 : ∀ d, d < 10 → digitChar d ≠ c) :
    c ∉ renderIntToken neg ip := by
  intro hmem
  rcases renderInt_chars neg ip c hmem with h | ⟨d, hd, h⟩
  · exact h1 h
  · exact h2 d (hip d hd) h.symm

/-! ## Claims about the precision-preserving JSON codec -/

/-- C4 (counterexample): the 19-significant-digit decimal literal
`9223372036854775807.0` (beyond f64's ~17-digit precision) is parsed
losslessly to a Decimal, but its fractional part is zero and its value fits
`i64`, so the serializer re-emits it as the plain integer text
`9223372036854775807` — not the original text.  This refutes the claim that
serialization reproduces every such input exactly. -/
theorem c4_lossless_roundtrip_counterexample :
    parseNumberRaw ("9223372036854775807.0".toList) =
      .ok (.decimal ⟨92233720368547758070, 1⟩) ∧
    serializeNumber (.decimal ⟨92233720368547758070, 1⟩) =
      some ("9223372036854775807".toList) ∧
    ("9223372036854775807".toList : Str) ≠ "9223372036854775807.0".toList :=
  ⟨rfl, rfl, by decide⟩

/-- C4 (amended): for every decimal literal token whose fractional part
contains a nonzero digit and which is exactly representable in the Decimal
type (at most 28 fractional digits, mantissa within 96 bits) — which covers
all decimal literals with more significant digits than an f64 holds, up to
the Decimal range — the lossless parse yields a Decimal and serialization
re-emits exactly the original text.  Literals with a zero fractional part
that fit `i64` are re-emitted as plain integers instead, and literals beyond
28 fractional digits are rounded on parse. -/
theorem c4_lossless_roundtrip_amended (neg : Bool) (ip fp : List ℕ)
    (hip : wfIntDigits ip) (hfp : wfFracDigits fp) (hnz : ∃ d ∈ fp, d ≠ 0)
    (hs : fp.length ≤ 28) (hm : ofDigitsBE (ip ++ fp) ≤ decMaxMantissa) :
    parseNumberRaw (renderDecToken neg ip fp) =
      .ok (.decimal ⟨(if neg then -(ofDigitsBE (ip ++ fp) : ℤ)
                      else (ofDigitsBE (ip ++ fp) : ℤ)), fp.length⟩) ∧
    serializeNumber (.decimal ⟨(if neg then -(ofDigitsBE (ip ++ fp) : ℤ)
                                else (ofDigitsBE (ip ++ fp) : ℤ)), fp.length⟩)
      = some (renderDecToken neg ip fp) := by
  constructor
  · have hdotmem : '.' ∈ renderDecToken neg ip fp := by simp [renderDecToken]
    have hdot : (renderDecToken neg ip fp).contains '.' = true :=
      contains_true_of_mem hdotmem
    simp only [parseNumberRaw, hdot, Bool.true_or, if_true]
    rw [fromStr_render neg ip fp hip.2.1 hfp.2
      (fun h => hip.1 (List.append_eq_nil.mp h).1)]
    rw [reduceFit_of_fit _ _ (by cases neg <;> simpa using hm) hs]
  · have hndvd := not_dvd_renderM ip fp hfp.2 hnz neg
    simp only [serializeNumber, Dec.fractIsZero]
    rw [if_neg (by simpa using hndvd)]
    rw [toChars_render neg ip fp hip hfp.2 hfp.1 (fun _ => M_ne_zero_of_frac ip fp hnz)]

/-- Witness for C4 at the spec's own example: the 29-significant-digit
literal `1234567890.1234567890123456789` round-trips exactly. -/
theorem c4_lossless_roundtrip_amended_witness :
    wfIntDigits [1, 2, 3, 4, 5, 6, 7, 8, 9, 0] ∧
    wfFracDigits [1, 2, 3, 4, 5, 6, 7, 8, 9, 0, 1, 2, 3, 4, 5, 6, 7, 8, 9] ∧
    parseNumberRaw (renderDecToken false [1, 2, 3, 4, 5, 6, 7, 8, 9, 0]
        [1, 2, 3, 4, 5, 6, 7, 8, 9, 0, 1, 2, 3, 4, 5, 6, 7, 8, 9]) =
      .ok (.decimal ⟨12345678901234567890123456789, 19⟩) ∧
    serializeNumber (.decimal ⟨12345678901234567890123456789, 19⟩) =
      some (renderDecToken false [1, 2, 3, 4, 5, 6, 7, 8, 9, 0]
        [1, 2, 3, 4, 5, 6, 7, 8, 9, 0, 1, 2, 3, 4, 5, 6, 7, 8, 9]) := by
  have h := c4_lossless_roundtrip_amended false [1, 2, 3, 4, 5, 6, 7, 8, 9, 0]
    [1, 2, 3, 4, 5, 6, 7, 8, 9, 0, 1, 2, 3, 4, 5, 6, 7, 8, 9]
    (by decide) (by decide) (by decide) (by decide) (by decide)
  exact ⟨by decide, by decide, h.1, h.2⟩

/-- C7 (counterexample): the valid exponent-free numeric token of 38 nines
does not fit `i64` and exceeds the 96-bit Decimal mantissa, so the
precision-preserving parse rejects it with a parse error instead of returning
a Decimal.  This refutes "every other valid numeric token is returned as
arbitrary-precision Decimal". -/
theorem c7_number_promotion_counterexample :
    ("99999999999999999999999999999999999999".toList.all Char.isDigit = true) ∧
    parseI64 ("99999999999999999999999999999999999999".toList) = none ∧
    parseNumberRaw ("99999999999999999999999999999999999999".toList) =
      .error ("failed to parse number: ".toList ++
        "99999999999999999999999999999999999999".toList) :=
  ⟨by decide, by decide, rfl⟩

/-- C7 (amended): in the precision-preserving parse, a numeric token with no
`.`/exponent marker whose value fits `i64` is returned as `Integer`; every
token containing an exponent marker is rejected with a hard parse error (the
Decimal parser does not accept exponent notation); and every other
well-formed decimal token that is representable in the 96-bit/scale-28
Decimal type is returned as `Decimal` (out-of-range tokens are a parse
error). -/
theorem c7_number_promotion_amended :
    (∀ (neg : Bool) (ip : List ℕ), wfIntDigits ip →
      -(2 ^ 63) ≤ (if neg then -(ofDigitsBE ip : ℤ) else (ofDigitsBE ip : ℤ)) →
      (if neg then -(ofDigitsBE ip : ℤ) else (ofDigitsBE ip : ℤ)) < 2 ^ 63 →
      parseNumberRaw (renderIntToken neg ip) =
        .ok (.integer (if neg then -(ofDigitsBE ip : ℤ) else (ofDigitsBE ip : ℤ)))) ∧
    (∀ cs : Str, ('e' ∈ cs ∨ 'E' ∈ cs) →
      parseNumberRaw cs = .error ("failed to parse number: ".toList ++ cs)) ∧
    (∀ (neg : Bool) (ip fp : List ℕ), wfIntDigits ip → wfFracDigits fp →
      fp.length ≤ 28 → ofDigitsBE (ip ++ fp) ≤ decMaxMantissa →
      parseNumberRaw (renderDecToken neg ip fp) =
        .ok (.decimal ⟨(if neg then -(ofDigitsBE (ip ++ fp) : ℤ)
                        else (ofDigitsBE (ip ++ fp) : ℤ)), fp.length⟩)) := by
  refine ⟨?_, ?_, ?_⟩
  · intro neg ip hip hlo hhi
    have hd1 : (renderIntToken neg ip).contains '.' = false :=
      contains_false_of_not_mem (renderInt_not_mem neg ip hip.2.1 '.' (by decide)
        (fun d hd => (digitChar_props d hd).2.2.2.2.1))
    have hd2 : (renderIntToken neg ip).contains 'e' = false :=
      contains_false_of_not_mem (renderInt_not_mem neg ip hip.2.1 'e' (by decide)
        (fun d hd => (digitChar_props d hd).2.2.2.2.2.2.1))
    have hd3 : (renderIntToken neg ip).contains 'E' = false :=
      contains_false_of_not_mem (renderInt_not_mem neg ip hip.2.1 'E' (by decide)
        (fun d hd => (digitChar_props d hd).2.2.2.2.2.2.2))
    simp only [parseNumberRaw, hd1, hd2, hd3, Bool.or_self, Bool.or_false, if_false]
    rw [parseI64_renderInt neg ip hip hlo hhi]
    rfl
  · intro cs hcs
    have hcond : (cs.contains '.' || cs.contains 'e' || cs.contains 'E') = true := by
      rcases hcs with h | h
      · rw [contains_true_of_mem h]
        simp
      · rw [contains_true_of_mem h]
        simp
    have hfrom : Dec.fromStr cs = none := by
      rcases hcs with h | h
      · exact fromStr_none_of_bad_char cs 'e' h (by decide) (by decide) (by decide)
          (by decide) (by decide)
      · exact fromStr_none_of_bad_char cs 'E' h (by decide) (by decide) (by decide)
          (by decide) (by decide)
    simp only [parseNumberRaw, hcond, hfrom]
    rfl
  · intro neg ip fp hip hfp hs hm
    have hdot : (renderDecToken neg ip fp).contains '.' = true :=
      contains_true_of_mem (by simp [renderDecToken])
    simp only [parseNumberRaw, hdot, Bool.true_or, if_true]
    rw [fromStr_render neg ip fp hip.2.1 hfp.2
      (fun h => hip.1 (List.append_eq_nil.mp h).1)]
    rw [reduceFit_of_fit _ _ (by cases neg <;> simpa using hm) hs]

/-- Witness for C7 at concrete inputs: `42` parses as Integer, `1e2` is a
hard parse error, and `1.5` parses as the Decimal with mantissa 15 and
scale 1. -/
theorem c7_number_promotion_amended_witness :
    wfIntDigits [4, 2] ∧
    parseNumberRaw (renderIntToken false [4, 2]) = .ok (.integer 42) ∧
    ('e' ∈ ("1e2".toList : Str)) ∧
    parseNumberRaw ("1e2".toList) =
      .error ("failed to parse number: ".toList ++ "1e2".toList) ∧
    wfFracDigits [5] ∧
    parseNumberRaw (renderDecToken false [1] [5]) = .ok (.decimal ⟨15, 1⟩) := by
  refine ⟨by decide, ?_, by decide, ?_, by decide, ?_⟩
  · exact c7_number_promotion_amended.1 false [4, 2] (by decide) (by decide) (by decide)
  · exact c7_number_promotion_amended.2.1 _ (Or.inl (by decide))
  · exact c7_number_promotion_amended.2.2 false [1] [5] (by decide) (by decide)
      (by decide) (by decide)

/-! ## Claims about string→number promotion -/

lemma firstNumeric_of_parseI64 (cs : Str) (n : ℤ) (h : parseI64 cs = some n) :
    firstNumericChar cs = true := by
  cases cs with
  | nil => simp [parseI64, splitSign] at h
  | cons c r =>
      unfold firstNumericChar
      by_cases h1 : c = '-'
      · simp [h1]
      · by_cases h2 : c = '+'
        · simp [h2]
        · simp only [parseI64, splitSign_cons c r h1 h2] at h
          by_cases hall : (c :: r : Str) ≠ [] ∧ (c :: r).all Char.isDigit
          · have := List.all_eq_true.mp hall.2 c (List.mem_cons_self _ _)
            simp [this]
          · rw [if_neg hall] at h
            cases h

lemma parseNumericList_eq_map (l : List Value) (u : Bool) :
    parseNumericList l u = l.map (fun v => parseNumeric v u) := by
  induction l with
  | nil => simp [parseNumericList]
  | cons v r ih => simp [parseNumericList, ih]

lemma parseNumericObj_eq_map (o : List (Str × Value)) (u : Bool) :
    parseNumericObj o u = o.map (fun p => (p.1, parseNumeric p.2 u)) := by
  induction o with
  | nil => simp [parseNumericObj]
  | cons p r ih => obtain ⟨k, v⟩ := p; simp [parseNumericObj, ih]

/-- C9 (confirmed): `parse_numeric` promotes a byte-string whose trimmed text
cleanly parses as `i64` (with no `.`) to `Integer`; otherwise, a
numeric-looking trimmed string becomes `Decimal` when the decimal flag is set
and `Float` when it is not; strings that do not look or parse numeric are
returned unchanged; arrays and objects are promoted element-wise; and all
other scalar values are unaffected. -/
theorem c9_parse_numeric_promotion :
    (∀ (s : Str) (u : Bool) (n : ℤ),
      (trimChars s).contains '.' = false →
      parseI64 (trimChars s) = some n →
      parseNumeric (.bytes s) u = .integer n) ∧
    (∀ (s : Str) (d : Dec),
      firstNumericChar (trimChars s) = true →
      (if (trimChars s).contains '.' then none else parseI64 (trimChars s)) = none →
      Dec.fromStr (trimChars s) = some d →
      parseNumeric (.bytes s) true = .decimal d) ∧
    (∀ (s : Str) (f f2 : F64),
      firstNumericChar (trimChars s) = true →
      (if (trimChars s).contains '.' then none else parseI64 (trimChars s)) = none →
      parseF64 (trimChars s) = some f →
      notNanNew f = some f2 →
      parseNumeric (.bytes s) false = .float f2) ∧
    (∀ (s : Str) (u : Bool),
      firstNumericChar (trimChars s) = false →
      parseNumeric (.bytes s) u = .bytes s) ∧
    (∀ s : Str,
      (if (trimChars s).contains '.' then none else parseI64 (trimChars s)) = none →
      Dec.fromStr (trimChars s) = none →
      parseNumeric (.bytes s) true = .bytes s) ∧
    (∀ (l : List Value) (u : Bool),
      parseNumeric (.array l) u = .array (l.map (fun v => parseNumeric v u))) ∧
    (∀ (o : List (Str × Value)) (u : Bool),
      parseNumeric (.object o) u = .object (o.map (fun p => (p.1, parseNumeric p.2 u)))) ∧
    (∀ u : Bool,
      parseNumeric .null u = .null ∧
      (∀ b, parseNumeric (.boolean b) u = .boolean b) ∧
      (∀ n, parseNumeric (.integer n) u = .integer n) ∧
      (∀ f, parseNumeric (.float f) u = .float f) ∧
      (∀ d, parseNumeric (.decimal d) u = .decimal d) ∧
      (∀ t, parseNumeric (.timestamp t) u = .timestamp t) ∧
      (∀ r, parseNumeric (.regex r) u = .regex r)) := by
  refine ⟨?_, ?_, ?_, ?_, ?_, ?_, ?_, ?_⟩
  · intro s u n hdot hi
    have hfc := firstNumeric_of_parseI64 _ _ hi
    simp only [parseNumeric, hfc, hdot, hi]
    rfl
  · intro s d hfc hnone hfrom
    simp only [parseNumeric, hfc, hnone, hfrom]
    rfl
  · intro s f f2 hfc hnone hpf hnn
    simp only [parseNumeric, hfc, hnone, hpf, hnn]
    rfl
  · intro s u hfc
    simp only [parseNumeric, hfc]
    rfl
  · intro s hnone hfrom
    by_cases hfc : firstNumericChar (trimChars s) = true
    · simp only [parseNumeric, hfc, hnone, hfrom]
      rfl
    · simp only [parseNumeric, Bool.eq_false_iff.mpr hfc]
      rfl
  · intro l u
    simp [parseNumeric, parseNumericList_eq_map]
  · intro o u
    simp [parseNumeric, parseNumericObj_eq_map]
  · intro u
    refine ⟨?_, fun b => ?_, fun n => ?_, fun f => ?_, fun d => ?_, fun t => ?_, fun r => ?_⟩ <;>
      simp [parseNumeric]

/-- Witness for C9 at the spec's examples: `"  123  "` (with whitespace)
promotes to Integer 123; `"123.456"` becomes the Decimal 123.456 in decimal
mode and the float 123.456 otherwise; `"hello"` is returned unchanged. -/
theorem c9_parse_numeric_promotion_witness :
    parseNumeric (.bytes ("  123  ".toList)) true = .integer 123 ∧
    parseNumeric (.bytes ("123.456".toList)) true = .decimal ⟨123456, 3⟩ ∧
    parseNumeric (.bytes ("123.456".toList)) false =
      .float (.finite (mkRat 123456 1000)) ∧
    parseNumeric (.bytes ("hello".toList)) true = .bytes ("hello".toList) := by
  refine ⟨?_, ?_, ?_, ?_⟩
  · exact c9_parse_numeric_promotion.1 _ true 123 (by decide) (by decide)
  · exact c9_parse_numeric_promotion.2.1 _ ⟨123456, 3⟩ (by decide) (by decide) (by decide)
  · exact c9_parse_numeric_promotion.2.2.1 _ (.finite (mkRat 123456 1000))
      (.finite (mkRat 123456 1000)) (by decide) (by decide) (by decide) (by decide)
  · exact c9_parse_numeric_promotion.2.2.2.1 _ true (by decide)

end VRL
